import Mathlib

/-!
# SmartRoute-VRP optimization core: a shallow embedding

This file embeds the optimization core of `src/utils/advanced_vrp_solver.py`
(the `AdvancedVRPSolver` class and its helpers) in Lean and proves
properties of the embedded program.

Modelling conventions:
* Python `float` quantities (distances, costs) are modelled as `ℚ`;
  worker counts and capacities are `Nat` as in the source (`int`).
* The distance dictionary `self.distances` is an association list; Python's
  `dict.get(key, 0)` is `dictGet` (first matching key, default `0`).
  A Python `dict` keeps one binding per key; with pairwise-distinct spot
  identifiers no key is inserted twice, so first-match lookup agrees.
* The external distance provider (`calculate_distance_with_osrm`) is an
  arbitrary function parameter `distFn`; the solver only ever consumes it
  through the precomputed cache.
* Fallible Python code (`random.randint` on an empty range, `next()` on an
  exhausted generator) is modelled in `Except String`.
* The random source is an explicit oracle.  The three destroy operators of
  `_apply_alns_iteration` (`random`, `worst`, `related`) each select a subset
  of the pickup-spot identifiers before any assignment is modified; the
  selection itself is modelled as an oracle-provided predicate over spot ids
  (`Oracle.keep`), so every behaviour of the three operators is an instance
  of some oracle, and theorems quantify over all oracles.
* Solutions built by the solver only ever reference vehicle/spot ids taken
  from the solver's own lists (Python would raise `KeyError` otherwise when
  it accumulates loads in dicts keyed by those ids); dict-keyed accumulation
  is modelled by filtered list sums, which agree on such solutions.
* `Solution.copy` (an explicit deep copy in Python) is implicit: our
  `Solution` is an immutable value, and in-place metric mutation by
  `_evaluate_solution` is modelled by returning an updated record.
* Visualisation-only output fields (route colours, OSRM geometry segments,
  durations) depend only on the external routing service and are omitted
  from the embedded `OptimizedRoute`.
-/

namespace VRP

/-- Vehicle data model (`models/data_models.py`).  The `vehicle_type`
category is informational only and not consumed by the solver. -/
structure Vehicle where
  id : String
  name : String
  capacity : Nat
  cost_per_km : ℚ
  deriving Repr, DecidableEq

/-- Pickup-spot data model (`models/data_models.py`). -/
structure PickupSpot where
  id : String
  name : String
  latitude : ℚ
  longitude : ℚ
  worker_count : Nat
  deriving Repr, DecidableEq

/-- Assignment of workers from a pickup spot to a vehicle
(`advanced_vrp_solver.py`, `@dataclass Assignment`). -/
structure Assignment where
  pickupspot_id : String
  vehicle_id : String
  workers : Nat
  deriving Repr, DecidableEq

/-- Complete VRP solution (`@dataclass Solution`). -/
structure Solution where
  assignments : List Assignment
  fitness : ℚ := 0
  total_cost : ℚ := 0
  total_distance : ℚ := 0
  vehicles_used : Nat := 0
  deriving Repr, DecidableEq

/-! ## Distance cache (`_compute_distances`) -/

/-- A key of the distance dictionary: a pair of point names
(`'factory'` or a pickup-spot id). -/
abbrev DistKey := String × String

/-- The distance dictionary, as an association list. -/
abbrev DistCache := List (DistKey × ℚ)

/-- Python `dict.get(key, 0)`: value of the first binding of `k`, else `0`. -/
def dictGet (m : DistCache) (k : DistKey) : ℚ :=
  match m.find? (fun e => e.1 == k) with
  | some e => e.2
  | none => 0

/-- Python `key in dict`. -/
def hasKey (m : DistCache) (k : DistKey) : Bool :=
  (m.find? (fun e => e.1 == k)).isSome

/-- First loop of `_compute_distances`: one `('factory', spot.id)` binding per
spot.  Note the reverse key `(spot.id, 'factory')` is *not* inserted. -/
def factoryEntries (distFn : ℚ × ℚ → ℚ × ℚ → ℚ) (factory_pos : ℚ × ℚ)
    (spots : List PickupSpot) : DistCache :=
  spots.map (fun p => (("factory", p.id), distFn factory_pos (p.latitude, p.longitude)))

/-- Second loop of `_compute_distances`: for every `i < j` pair of spots,
both directed keys are inserted with the single computed value. -/
def pairEntries (distFn : ℚ × ℚ → ℚ × ℚ → ℚ) : List PickupSpot → DistCache
  | [] => []
  | p :: ps =>
    (ps.map (fun q =>
      let d := distFn (p.latitude, p.longitude) (q.latitude, q.longitude)
      [((p.id, q.id), d), ((q.id, p.id), d)])).flatten ++ pairEntries distFn ps

/-- `_compute_distances`: the full precomputed distance dictionary. -/
def compute_distances (distFn : ℚ × ℚ → ℚ × ℚ → ℚ) (factory_pos : ℚ × ℚ)
    (spots : List PickupSpot) : DistCache :=
  factoryEntries distFn factory_pos spots ++ pairEntries distFn spots

/-! ## Route distance evaluator (`_calculate_route_distance`)

`D` stands for the lookup function of the solver's distance dictionary,
i.e. `fun a b => dictGet cache (a, b)`; the source reads the dictionary
only through `.get(key, 0)`. -/

/-- The inner `for` loop of the nearest-neighbour search: scan `remaining`
keeping the first spot whose distance from `current` is strictly smaller
than the best so far (`nearest_dist` starts at `inf`, so the first spot
always becomes the initial candidate). -/
def pickNearest (D : String → String → ℚ) (current : String) :
    List String → Option (String × ℚ)
  | [] => none
  | x :: xs =>
    some (xs.foldl
      (fun b y => if D current y < b.2 then (y, D current y) else b)
      (x, D current x))

/-- The `while remaining:` loop of `_calculate_route_distance`, with fuel.
When `remaining` is exhausted the factory return leg is added; the source
looks it up under the key `('factory', current)`. -/
def nnGo (D : String → String → ℚ) : Nat → String → List String → ℚ
  | 0, current, _ => D "factory" current
  | fuel + 1, current, remaining =>
    match pickNearest D current remaining with
    | none => D "factory" current
    | some (nearest, ndist) => ndist + nnGo D fuel nearest (remaining.erase nearest)

/-- `_calculate_route_distance`: nearest-neighbour tour length for a list of
pickup-spot ids, starting and ending at the factory; `0` for no spots. -/
def calculate_route_distance (D : String → String → ℚ) (ids : List String) : ℚ :=
  if ids.isEmpty then 0 else nnGo D ids.length "factory" ids

/-! ## Solution evaluator (`_evaluate_solution`) -/

/-- The workers currently loaded on vehicle `vid` by `asgs`
(the dict-keyed accumulations `vehicle_loads[...] += workers`). -/
def loadOf (asgs : List Assignment) (vid : String) : Nat :=
  ((asgs.filter (fun a => a.vehicle_id == vid)).map (fun a => a.workers)).sum

/-- The workers assigned from pickup spot `pid` by `asgs`
(the dict-keyed accumulations `pickupspot_assigned[...] += workers`). -/
def assignedOf (asgs : List Assignment) (pid : String) : Nat :=
  ((asgs.filter (fun a => a.pickupspot_id == pid)).map (fun a => a.workers)).sum

/-- Workers loaded on vehicle `vid` by a solution. -/
def vehicleLoad (s : Solution) (vid : String) : Nat := loadOf s.assignments vid

/-- Workers assigned from spot `pid` by a solution. -/
def spotAssigned (s : Solution) (pid : String) : Nat := assignedOf s.assignments pid

/-- Python `list(set(...))`: the distinct elements of a list.  A CPython `set`
iterates in unspecified hash order; we fix first-occurrence order.  Every
quantity the solver derives from this list except nearest-neighbour
tie-breaking is order-independent. -/
def distinctL (l : List String) : List String :=
  l.foldl (fun acc x => if x ∈ acc then acc else acc ++ [x]) []

/-- The assignments of one vehicle, in solution order
(`vehicle_routes[v.id]` after the grouping loop). -/
def routeOf (s : Solution) (vid : String) : List Assignment :=
  s.assignments.filter (fun a => a.vehicle_id == vid)

/-- The body of `_evaluate_solution`'s per-vehicle loop, accumulating
`(total_cost, total_distance, vehicles_used)`. -/
def evalStep (D : String → String → ℚ) (s : Solution)
    (acc : ℚ × ℚ × Nat) (v : Vehicle) : ℚ × ℚ × Nat :=
  let route := routeOf s v.id
  if route.isEmpty then acc
  else
    let ids := distinctL (route.map (fun a => a.pickupspot_id))
    let route_distance := calculate_route_distance D ids
    let route_cost := route_distance * v.cost_per_km
    (acc.1 + route_cost, acc.2.1 + route_distance, acc.2.2 + 1)

/-- `_evaluate_solution`: recompute the derived metrics of a solution from
its assignment list.  The Python method mutates `solution` in place; here
the updated record is returned. -/
def evaluate_solution (V : List Vehicle) (D : String → String → ℚ)
    (s : Solution) : Solution :=
  let t := V.foldl (evalStep D s) (0, 0, 0)
  { s with
    total_cost := t.1
    total_distance := t.2.1
    vehicles_used := t.2.2
    fitness := t.1 + (t.2.2 : ℚ) * 1000 }

/-! ## Validity check (`_is_valid_solution`) -/

/-- `_is_valid_solution`: every vehicle within capacity, and every pickup
spot's assigned workers exactly equal to its declared worker count. -/
def is_valid_solution (V : List Vehicle) (spots : List PickupSpot)
    (s : Solution) : Bool :=
  (V.all (fun v => vehicleLoad s v.id ≤ v.capacity)) &&
  (spots.all (fun p => spotAssigned s p.id == p.worker_count))

/-! ## Sorting (Python's stable `sorted`) -/

/-- Stable insertion into a cost-ascending vehicle list: walk past strictly
cheaper vehicles, so earlier vehicles win ties (Python `sorted` is stable). -/
def insertByCost (v : Vehicle) : List Vehicle → List Vehicle
  | [] => [v]
  | w :: ws => if w.cost_per_km < v.cost_per_km then w :: insertByCost v ws else v :: w :: ws

/-- `sorted(vehicles, key=lambda v: v.cost_per_km)`. -/
def sortVehiclesByCost : List Vehicle → List Vehicle
  | [] => []
  | v :: vs => insertByCost v (sortVehiclesByCost vs)

/-- Stable insertion into a worker-count-descending spot list: walk past
strictly larger spots, so earlier spots win ties. -/
def insertByWorkersDesc (p : PickupSpot) : List PickupSpot → List PickupSpot
  | [] => [p]
  | q :: qs =>
    if p.worker_count < q.worker_count then q :: insertByWorkersDesc p qs else p :: q :: qs

/-- `sorted(pickupspots, key=lambda d: d.worker_count, reverse=True)`. -/
def sortSpotsByWorkersDesc : List PickupSpot → List PickupSpot
  | [] => []
  | p :: ps => insertByWorkersDesc p (sortSpotsByWorkersDesc ps)

/-! ## Greedy constructor (`_create_greedy_solution`) -/

/-- The inner loop of `_create_greedy_solution`: fill one vehicle from the
working spot list, returning the assignments appended for this vehicle and
the remaining spot list (with a virtual reduced-count spot after a partial
pickup). -/
def greedy_fill_vehicle (v : Vehicle) : Nat → List PickupSpot →
    List Assignment × List PickupSpot
  | _, [] => ([], [])
  | load, p :: ps =>
    if load + p.worker_count ≤ v.capacity then
      -- entire pickup spot fits
      let r := greedy_fill_vehicle v (load + p.worker_count) ps
      (⟨p.id, v.id, p.worker_count⟩ :: r.1, r.2)
    else if load < v.capacity then
      -- pickup-spot splitting: fill the remaining space, carry the leftover
      let available_space := v.capacity - load
      let r := greedy_fill_vehicle v (load + available_space) ps
      (⟨p.id, v.id, available_space⟩ :: r.1,
        { p with worker_count := p.worker_count - available_space } :: r.2)
    else
      -- vehicle full: keep the spot for the next vehicle
      let r := greedy_fill_vehicle v load ps
      (r.1, p :: r.2)

/-- The outer loop of `_create_greedy_solution` over cost-sorted vehicles
(`break` once every spot is assigned). -/
def greedy_assign : List Vehicle → List PickupSpot → List Assignment
  | [], _ => []
  | v :: vs, spots =>
    if spots.isEmpty then []
    else
      let r := greedy_fill_vehicle v 0 spots
      r.1 ++ greedy_assign vs r.2

/-- `_create_greedy_solution`: cost-efficiency-first, capacity-first-fit
construction, evaluated before being returned.  (If total capacity is short,
the shortfall is only logged as a warning in the source; the partially
assigned solution is still returned.) -/
def create_greedy_solution (V : List Vehicle) (spots : List PickupSpot)
    (D : String → String → ℚ) : Solution :=
  evaluate_solution V D
    { assignments := greedy_assign (sortVehiclesByCost V) (sortSpotsByWorkersDesc spots) }

/-! ## Consolidation pass (`_consolidate_routes`) -/

/-- The shared split loop (`_consolidate_routes` lines 441-455 and
`_apply_alns_iteration` lines 576-588): walk the cost-sorted vehicles,
taking from each as much of `remaining` as fits, appending one assignment
per vehicle touched; returns the extended assignment list and the workers
left over.  `available` is computed over `ℤ` exactly as Python computes
`vehicle.capacity - current_load`. -/
def splitAcross (sortedV : List Vehicle) (pid : String) :
    List Assignment → Nat → List Assignment × Nat
  | acc, remaining =>
    match sortedV with
    | [] => (acc, remaining)
    | v :: vs =>
      if remaining = 0 then (acc, remaining)
      else
        let available : ℤ := (v.capacity : ℤ) - (loadOf acc v.id : ℤ)
        if 0 < available then
          let pick := min remaining available.toNat
          splitAcross vs pid (acc ++ [⟨pid, v.id, pick⟩]) (remaining - pick)
        else
          splitAcross vs pid acc remaining

/-- The per-spot loop of `_consolidate_routes`: re-derive a fresh assignment
list spot by spot (in original input-spot order), placing each spot's total
demand from `s` whole on the first cost-sorted vehicle with room, else
splitting it; `none` models the abort path (`return solution` when workers
are left over). -/
def consolidate_build (sortedV : List Vehicle) (s : Solution) :
    List PickupSpot → List Assignment → Option (List Assignment)
  | [], acc => some acc
  | p :: ps, acc =>
    let total_workers := assignedOf s.assignments p.id
    match sortedV.find? (fun v => loadOf acc v.id + total_workers ≤ v.capacity) with
    | some v => consolidate_build sortedV s ps (acc ++ [⟨p.id, v.id, total_workers⟩])
    | none =>
      let r := splitAcross sortedV p.id acc total_workers
      if 0 < r.2 then none else consolidate_build sortedV s ps r.1

/-- `_consolidate_routes`: build the consolidated assignment; keep the prior
solution on abort, on failed validation, or on the redundant capacity
re-check; otherwise evaluate and accept only if strictly cheaper or using
strictly fewer vehicles. -/
def consolidate_routes (V : List Vehicle) (spots : List PickupSpot)
    (D : String → String → ℚ) (s : Solution) : Solution :=
  let sortedV := sortVehiclesByCost V
  match consolidate_build sortedV s spots [] with
  | none => s
  | some asgs =>
    let consolidated : Solution := { assignments := asgs }
    if !(is_valid_solution V spots consolidated) then s
    else if !(V.all (fun v => vehicleLoad consolidated v.id ≤ v.capacity)) then s
    else
      let c := evaluate_solution V D consolidated
      if c.total_cost < s.total_cost || c.vehicles_used < s.vehicles_used then c else s

/-! ## ALNS iteration (`_apply_alns_iteration`) -/

/-- The explicit random source.  `raw i` feeds iteration `i`'s
`random.randint`; `keep i` abstracts iteration `i`'s destroy-operator
selection (see the header comment). -/
structure Oracle where
  raw : Nat → Nat
  keep : Nat → String → Bool

/-- `random.randint(lo, hi)`: any value of `[lo, hi]`, driven by a raw
oracle value; `ValueError` (modelled as `Except.error`) when the range is
empty. -/
def randint (lo hi : Nat) (r : Nat) : Except String Nat :=
  if lo ≤ hi then .ok (lo + r % (hi - lo + 1))
  else .error "empty range for randrange"

/-- The repair step for one destroyed spot (`_apply_alns_iteration` lines
555-588): look the spot up in the solver's spot list (`next(...)`, which
raises if the id is unknown), try the first cost-sorted vehicle whose spare
capacity takes the whole demand, else split across vehicles. -/
def repair_insert (sortedV : List Vehicle) (spots : List PickupSpot)
    (asgs : List Assignment) (pid : String) : Except String (List Assignment) :=
  match spots.find? (fun d => d.id == pid) with
  | none => .error "StopIteration: unknown pickup spot id"
  | some p =>
    match sortedV.find?
        (fun v => (p.worker_count : ℤ) ≤ (v.capacity : ℤ) - (loadOf asgs v.id : ℤ)) with
    | some v => .ok (asgs ++ [⟨p.id, v.id, p.worker_count⟩])
    | none => .ok (splitAcross sortedV p.id asgs p.worker_count).1

/-- `_apply_alns_iteration`: draw the destroy count (which raises on fewer
than two spots), select the destroyed spot ids, drop their assignments,
greedily re-insert them, and return the evaluated candidate only if it
passes `_is_valid_solution` (else `None`, modelled as `.ok none`). -/
def apply_alns_iteration (V : List Vehicle) (spots : List PickupSpot)
    (D : String → String → ℚ) (orc : Oracle) (i : Nat) (s : Solution) :
    Except String (Option Solution) := do
  let _destroy_count ← randint 2 (min 5 spots.length) (orc.raw i)
  let destroyed := (spots.map (fun p => p.id)).filter (orc.keep i)
  let afterDestroy := s.assignments.filter (fun a => !(destroyed.contains a.pickupspot_id))
  let sortedV := sortVehiclesByCost V
  let repaired ← destroyed.foldlM (fun asgs pid => repair_insert sortedV spots asgs pid)
    afterDestroy
  let current := { s with assignments := repaired }
  if is_valid_solution V spots current then
    return some (evaluate_solution V D current)
  else
    return none

/-! ## The solve loop and result conversion -/

/-- The ALNS improvement loop of `solve` (lines 120-126): run `n` more
iterations starting at iteration index `i`, adopting a candidate only when
it exists (valid) and is strictly cheaper than the current best. -/
def alns_loop (V : List Vehicle) (spots : List PickupSpot)
    (D : String → String → ℚ) (orc : Oracle) :
    Nat → Nat → Solution → Except String Solution
  | 0, _, best => .ok best
  | n + 1, i, best => do
    let improved ← apply_alns_iteration V spots D orc i best
    let best' :=
      match improved with
      | some c => if c.total_cost < best.total_cost then c else best
      | none => best
    alns_loop V spots D orc n (i + 1) best'

/-- One stop of an optimized route (`models/data_models.py RouteStop`). -/
structure RouteStop where
  pickupspot_id : String
  pickupspot_name : String
  latitude : ℚ
  longitude : ℚ
  worker_count : Nat
  arrival_order : Nat
  cumulative_load : Nat
  pickup_details : String
  deriving Repr, DecidableEq

/-- Per-vehicle output route.  Visualisation-only fields (colour, OSRM
geometry segments, duration) are omitted; see the header comment. -/
structure OptimizedRoute where
  vehicle_id : String
  vehicle_name : String
  stops : List RouteStop
  total_distance_km : ℚ
  total_cost : ℚ
  utilization_percent : ℚ
  max_passengers : Nat
  deriving Repr, DecidableEq

/-- Complete optimization result (`models/data_models.py`). -/
structure OptimizationResult where
  routes : List OptimizedRoute
  total_distance : ℚ
  total_cost : ℚ
  total_vehicles_used : Nat
  unassigned_pickupspots : List String
  deriving Repr, DecidableEq

/-- Build the `RouteStop` list of one vehicle from its grouped
`(spot id, workers)` pairs, numbering arrival order from 1 and accumulating
the running load; the spot lookup is Python's `next(...)`. -/
def build_stops (spots : List PickupSpot) :
    List (String × Nat) → Nat → Nat → Except String (List RouteStop)
  | [], _, _ => .ok []
  | (pid, w) :: rest, ord, cum =>
    match spots.find? (fun d => d.id == pid) with
    | none => .error "StopIteration: unknown pickup spot id"
    | some p => do
      let tail ← build_stops spots rest (ord + 1) (cum + w)
      return ⟨p.id, p.name, p.latitude, p.longitude, w, ord, cum + w,
        "Picked up " ++ toString w ++ " workers"⟩ :: tail

/-- The per-vehicle body of `_convert_to_result`. -/
def convert_vehicle (spots : List PickupSpot) (D : String → String → ℚ)
    (s : Solution) (acc : List OptimizedRoute) (v : Vehicle) :
    Except String (List OptimizedRoute) :=
  let route_as := routeOf s v.id
  if route_as.isEmpty then .ok acc
  else do
    let pids := distinctL (route_as.map (fun a => a.pickupspot_id))
    let groups := pids.map (fun pid => (pid, assignedOf route_as pid))
    let stops ← build_stops spots groups 1 0
    let route_distance := calculate_route_distance D pids
    let route_cost := route_distance * v.cost_per_km
    let total_workers : Nat := (groups.map (fun g => g.2)).sum
    let utilization := ((total_workers : ℚ) / (v.capacity : ℚ)) * 100
    return acc ++ [⟨v.id, v.name, stops, route_distance, route_cost, utilization,
      total_workers⟩]

/-- `_convert_to_result`: one `OptimizedRoute` per vehicle with at least one
assignment, plus the solution's totals; the unassigned-spot list is always
empty in the source. -/
def convert_to_result (V : List Vehicle) (spots : List PickupSpot)
    (D : String → String → ℚ) (s : Solution) : Except String OptimizationResult := do
  let routes ← V.foldlM (convert_vehicle spots D s) []
  return ⟨routes, s.total_distance, s.total_cost, s.vehicles_used, []⟩

/-- `solve` up to (but excluding) `_convert_to_result`: greedy construction,
100 ALNS iterations, final consolidation.  `__init__` sorts the vehicle
list by cost efficiency and precomputes the distance dictionary. -/
def solveSolution (vehiclesInput : List Vehicle) (spots : List PickupSpot)
    (distFn : ℚ × ℚ → ℚ × ℚ → ℚ) (factory_pos : ℚ × ℚ) (orc : Oracle) :
    Except String Solution := do
  let V := sortVehiclesByCost vehiclesInput
  let D := fun a b => dictGet (compute_distances distFn factory_pos spots) (a, b)
  let best ← alns_loop V spots D orc 100 0 (create_greedy_solution V spots D)
  return consolidate_routes V spots D best

/-- `solve` / `solve_vrp_advanced`: the full pipeline as seen by the caller.
An `Except.error` models a Python exception escaping `solve`. -/
def solve (vehiclesInput : List Vehicle) (spots : List PickupSpot)
    (distFn : ℚ × ℚ → ℚ × ℚ → ℚ) (factory_pos : ℚ × ℚ) (orc : Oracle) :
    Except String OptimizationResult := do
  let V := sortVehiclesByCost vehiclesInput
  let D := fun a b => dictGet (compute_distances distFn factory_pos spots) (a, b)
  let best ← solveSolution vehiclesInput spots distFn factory_pos orc
  convert_to_result V spots D best

/-! ## Invariants and helper lemmas -/

/-- Capacity invariant: every vehicle's assigned-worker sum is at most its
capacity. -/
def CapacityInv (V : List Vehicle) (s : Solution) : Prop :=
  ∀ v ∈ V, vehicleLoad s v.id ≤ v.capacity

/-- Demand-conservation invariant: every pickup spot's assigned-worker sum
equals its declared worker count exactly. -/
def DemandInv (spots : List PickupSpot) (s : Solution) : Prop :=
  ∀ p ∈ spots, spotAssigned s p.id = p.worker_count

instance (V : List Vehicle) (s : Solution) : Decidable (CapacityInv V s) := by
  unfold CapacityInv; infer_instance

instance (spots : List PickupSpot) (s : Solution) : Decidable (DemandInv spots s) := by
  unfold DemandInv; infer_instance

lemma is_valid_iff (V : List Vehicle) (spots : List PickupSpot) (s : Solution) :
    is_valid_solution V spots s = true ↔ CapacityInv V s ∧ DemandInv spots s := by
  simp [is_valid_solution, CapacityInv, DemandInv, List.all_eq_true]

lemma evaluate_solution_assignments (V : List Vehicle) (D : String → String → ℚ)
    (s : Solution) : (evaluate_solution V D s).assignments = s.assignments := rfl

lemma vehicleLoad_congr {s t : Solution} (h : s.assignments = t.assignments)
    (vid : String) : vehicleLoad s vid = vehicleLoad t vid := by
  unfold vehicleLoad; rw [h]

lemma spotAssigned_congr {s t : Solution} (h : s.assignments = t.assignments)
    (pid : String) : spotAssigned s pid = spotAssigned t pid := by
  unfold spotAssigned; rw [h]

lemma capacityInv_congr {V : List Vehicle} {s t : Solution}
    (h : s.assignments = t.assignments) : CapacityInv V s → CapacityInv V t := by
  intro hc v hv
  rw [← vehicleLoad_congr h]
  exact hc v hv

lemma demandInv_congr {spots : List PickupSpot} {s t : Solution}
    (h : s.assignments = t.assignments) : DemandInv spots s → DemandInv spots t := by
  intro hd p hp
  rw [← spotAssigned_congr h]
  exact hd p hp

/-- A candidate returned (not `None`) by an ALNS iteration has passed
`_is_valid_solution`, so it satisfies both invariants. -/
lemma apply_alns_iteration_ok_some_valid (V : List Vehicle)
    (spots : List PickupSpot) (D : String → String → ℚ) (orc : Oracle) (i : Nat)
    (s c : Solution) (h : apply_alns_iteration V spots D orc i s = .ok (some c)) :
    DemandInv spots c ∧ CapacityInv V c := by
  unfold apply_alns_iteration at h
  cases hr : randint 2 (min 5 spots.length) (orc.raw i) with
  | error e => rw [hr] at h; simp [bind, Except.bind] at h
  | ok dcount =>
    rw [hr] at h
    simp only [bind, Except.bind] at h
    cases hf : ((spots.map (fun p => p.id)).filter (orc.keep i)).foldlM
        (fun asgs pid => repair_insert (sortVehiclesByCost V) spots asgs pid)
        (s.assignments.filter
          (fun a => !(((spots.map (fun p => p.id)).filter (orc.keep i)).contains
            a.pickupspot_id))) with
    | error e => rw [hf] at h; simp at h
    | ok repaired =>
      rw [hf] at h
      by_cases hv : is_valid_solution V spots { s with assignments := repaired } = true
      · simp only [hv, if_true, pure, Except.pure, Except.ok.injEq,
          Option.some.injEq] at h
        subst h
        have hinv := (is_valid_iff V spots _).mp hv
        refine ⟨demandInv_congr (s := { s with assignments := repaired }) rfl hinv.2,
          capacityInv_congr (s := { s with assignments := repaired }) rfl hinv.1⟩
      · simp only [Bool.not_eq_true] at hv
        simp [hv, pure, Except.pure] at h

/-- The ALNS loop either keeps its starting solution or ends at a solution
that satisfies both invariants (it only ever adopts validated candidates). -/
lemma alns_loop_result_cases (V : List Vehicle) (spots : List PickupSpot)
    (D : String → String → ℚ) (orc : Oracle) :
    ∀ (n i : Nat) (best out : Solution),
      alns_loop V spots D orc n i best = .ok out →
      out = best ∨ (DemandInv spots out ∧ CapacityInv V out) := by
  intro n
  induction n with
  | zero =>
    intro i best out h
    simp only [alns_loop, Except.ok.injEq] at h
    exact Or.inl h.symm
  | succ n ih =>
    intro i best out h
    simp only [alns_loop, bind, Except.bind] at h
    cases hr : apply_alns_iteration V spots D orc i best with
    | error e => rw [hr] at h; simp at h
    | ok improved =>
      rw [hr] at h
      cases improved with
      | none => exact ih (i + 1) best out h
      | some c =>
        by_cases hc : c.total_cost < best.total_cost
        · simp only [hc, if_true] at h
          rcases ih (i + 1) c out h with rfl | hv
          · exact Or.inr (apply_alns_iteration_ok_some_valid V spots D orc i best out hr)
          · exact Or.inr hv
        · simp only [hc, if_false] at h
          exact ih (i + 1) best out h

/-- Consolidation either returns its input solution unchanged or a solution
that passed `_is_valid_solution`. -/
lemma consolidate_routes_cases (V : List Vehicle) (spots : List PickupSpot)
    (D : String → String → ℚ) (s : Solution) :
    consolidate_routes V spots D s = s ∨
      (DemandInv spots (consolidate_routes V spots D s) ∧
       CapacityInv V (consolidate_routes V spots D s)) := by
  simp only [consolidate_routes]
  split
  · exact Or.inl rfl
  · split
    · exact Or.inl rfl
    · split
      · exact Or.inl rfl
      · split
        · next asgs hb hv hcap hacc =>
          have hv' : is_valid_solution V spots { assignments := asgs } = true := by
            revert hv
            cases is_valid_solution V spots { assignments := asgs } <;> simp
          have hinv := (is_valid_iff V spots _).mp hv'
          exact Or.inr ⟨demandInv_congr (s := { assignments := asgs }) rfl hinv.2,
            capacityInv_congr (s := { assignments := asgs }) rfl hinv.1⟩
        · exact Or.inl rfl

/-- Consolidation never regresses cost without strictly reducing the vehicle
count: the returned solution is either not costlier, or uses strictly fewer
vehicles, than the input. -/
lemma consolidate_routes_accept_guard (V : List Vehicle) (spots : List PickupSpot)
    (D : String → String → ℚ) (s : Solution) :
    (consolidate_routes V spots D s).total_cost ≤ s.total_cost ∨
      (consolidate_routes V spots D s).vehicles_used < s.vehicles_used := by
  simp only [consolidate_routes]
  split
  · exact Or.inl le_rfl
  · split
    · exact Or.inl le_rfl
    · split
      · exact Or.inl le_rfl
      · split
        · next asgs hb hv hcap hacc =>
          rcases Bool.or_eq_true_iff.mp hacc with h1 | h2
          · exact Or.inl (le_of_lt (of_decide_eq_true h1))
          · exact Or.inr (of_decide_eq_true h2)
        · exact Or.inl le_rfl

/-! ## Concrete instances (used by witnesses and counterexamples) -/

/-- An all-ones external distance provider. -/
def exDistFn : ℚ × ℚ → ℚ × ℚ → ℚ := fun _ _ => 1

/-- A factory position. -/
def exFpos : ℚ × ℚ := (0, 0)

/-- An oracle whose destroy selection keeps every spot id (the behaviour of
the `random` operator when the draw selects all spots, and of `related` once
it has grown to all spots). -/
def exOrcTrue : Oracle := ⟨fun _ => 0, fun _ _ => true⟩

/-- One cheap large vehicle and one dear small vehicle. -/
def exC2V : List Vehicle := [⟨"v1", "V1", 20, 1⟩, ⟨"v2", "V2", 10, 2⟩]

/-- Two spots of ten workers each, both 1 km from the factory but 100 km
apart. -/
def exC2Spots : List PickupSpot := [⟨"A", "A", 0, 1, 10⟩, ⟨"B", "B", 1, 0, 10⟩]

/-- The matching distance lookup. -/
def exC2D : String → String → ℚ := fun a b =>
  if a == b then 0 else if a == "factory" || b == "factory" then 1 else 100

/-- A valid evaluated solution serving each spot with its own vehicle
(total cost 6). -/
def exC2In : Solution :=
  evaluate_solution exC2V exC2D { assignments := [⟨"A", "v1", 10⟩, ⟨"B", "v2", 10⟩] }

/-- A single vehicle of capacity 50. -/
def exC3V : List Vehicle := [⟨"v1", "V1", 50, 1⟩]

/-- Total demand 100 against total capacity 50. -/
def exC3Spots : List PickupSpot := [⟨"A", "A", 0, 1, 60⟩, ⟨"B", "B", 1, 0, 40⟩]

/-- The distance lookup the solver precomputes for that instance. -/
def exC3D : String → String → ℚ :=
  fun a b => dictGet (compute_distances exDistFn exFpos exC3Spots) (a, b)

/-- The solution `solve` ends with on the short-capacity instance: only 50
of spot A's 60 workers are assigned, and spot B none at all. -/
def exC3FinalSol : Solution := ⟨[⟨"A", "v1", 50⟩], 1002, 2, 2, 1⟩

/-- The `OptimizationResult` the caller receives for that instance,
reporting an empty unassigned-spot list. -/
def exC3Result : OptimizationResult :=
  ⟨[⟨"v1", "V1", [⟨"A", "A", 0, 1, 50, 1, 50, "Picked up 50 workers"⟩], 2, 2, 100, 50⟩],
    2, 2, 1, []⟩

/-- One vehicle with room for everything. -/
def exV1 : List Vehicle := [⟨"v1", "V1", 10, 1⟩]

/-- A feasible two-spot instance. -/
def exSpots1 : List PickupSpot := [⟨"A", "A", 0, 1, 3⟩, ⟨"B", "B", 1, 0, 2⟩]

/-- Its precomputed distance lookup. -/
def exD1 : String → String → ℚ :=
  fun a b => dictGet (compute_distances exDistFn exFpos exSpots1) (a, b)

/-- Its greedy starting solution. -/
def exSol1 : Solution := create_greedy_solution (sortVehiclesByCost exV1) exSpots1 exD1

/-- The candidate one ALNS iteration (destroying both spots) returns for it. -/
def exCand1 : Solution := ⟨[⟨"A", "v1", 3⟩, ⟨"B", "v1", 2⟩], 1003, 3, 3, 1⟩

/-- A single pickup spot. -/
def exOneSpot : List PickupSpot := [⟨"S", "S", 0, 1, 10⟩]

/-! ## Claim theorems -/

/-- Claim C1: every solution the ALNS loop adopts as the new best, and every
solution the consolidation pass accepts, satisfies both the
demand-conservation and the capacity invariant; a candidate violating either
is discarded and the prior solution is retained (the loop keeps its previous
best, consolidation returns its input unchanged). -/
theorem c1_adoption_gated_by_invariants :
    (∀ (V : List Vehicle) (spots : List PickupSpot) (D : String → String → ℚ)
        (orc : Oracle) (i : Nat) (s c : Solution),
        apply_alns_iteration V spots D orc i s = .ok (some c) →
        DemandInv spots c ∧ CapacityInv V c) ∧
    (∀ (V : List Vehicle) (spots : List PickupSpot) (D : String → String → ℚ)
        (orc : Oracle) (n i : Nat) (best out : Solution),
        alns_loop V spots D orc n i best = .ok out →
        out = best ∨ (DemandInv spots out ∧ CapacityInv V out)) ∧
    (∀ (V : List Vehicle) (spots : List PickupSpot) (D : String → String → ℚ)
        (s : Solution),
        consolidate_routes V spots D s = s ∨
        (DemandInv spots (consolidate_routes V spots D s) ∧
         CapacityInv V (consolidate_routes V spots D s))) :=
  ⟨apply_alns_iteration_ok_some_valid,
    fun V spots D orc n i best out h => alns_loop_result_cases V spots D orc n i best out h,
    consolidate_routes_cases⟩

/-- Witness for C1: on a concrete feasible instance one ALNS iteration
returns the candidate `exCand1`, and the theorem yields both invariants
for it. -/
theorem c1_witness : DemandInv exSpots1 exCand1 ∧ CapacityInv exV1 exCand1 :=
  c1_adoption_gated_by_invariants.1 exV1 exSpots1 exD1 exOrcTrue 0 exSol1 exCand1
    (by with_unfolding_all rfl)

/-- Claim C2 (counterexample): consolidation can return a solution with
strictly larger `total_cost` than its input.  On `exC2In` (cost 6, two
vehicles) the pass merges both spots onto the cheap vehicle — 1 vehicle but
a 102 km tour — and accepts it because `vehicles_used` drops, so the
returned cost 102 is not `≤ 6`. -/
theorem c2_counterexample :
    ¬ ((consolidate_routes exC2V exC2Spots exC2D exC2In).total_cost ≤
        exC2In.total_cost) := by
  with_unfolding_all decide

/-- Claim C2 (amended): the solution returned by the consolidation pass has
`total_cost` at most the input's, or else uses strictly fewer vehicles than
the input (the acceptance guard is a disjunction of the two strict
improvements). -/
theorem c2_amended_nonregression (V : List Vehicle) (spots : List PickupSpot)
    (D : String → String → ℚ) (s : Solution) :
    (consolidate_routes V spots D s).total_cost ≤ s.total_cost ∨
      (consolidate_routes V spots D s).vehicles_used < s.vehicles_used :=
  consolidate_routes_accept_guard V spots D s

/-- Claim C4: across the ALNS improvement loop the best solution's
`total_cost` never increases — a candidate replaces the best only when it is
valid and strictly cheaper, so the loop's result costs at most its start. -/
theorem c4_alns_loop_never_regresses (V : List Vehicle) (spots : List PickupSpot)
    (D : String → String → ℚ) (orc : Oracle) :
    ∀ (n i : Nat) (best out : Solution),
      alns_loop V spots D orc n i best = .ok out →
      out.total_cost ≤ best.total_cost := by
  intro n
  induction n with
  | zero =>
    intro i best out h
    simp only [alns_loop, Except.ok.injEq] at h
    exact h ▸ le_rfl
  | succ n ih =>
    intro i best out h
    simp only [alns_loop, bind, Except.bind] at h
    cases hr : apply_alns_iteration V spots D orc i best with
    | error e => rw [hr] at h; simp at h
    | ok improved =>
      rw [hr] at h
      cases improved with
      | none => exact ih (i + 1) best out h
      | some c =>
        by_cases hc : c.total_cost < best.total_cost
        · simp only [hc, if_true] at h
          exact le_trans (ih (i + 1) c out h) (le_of_lt hc)
        · simp only [hc, if_false] at h
          exact ih (i + 1) best out h

set_option maxRecDepth 100000 in
/-- Witness for C4: on the short-capacity instance every one of the 100
iterations produces an invalid candidate, so the loop returns its starting
solution and the cost bound is discharged at a concrete run. -/
theorem c4_witness : exC3FinalSol.total_cost ≤ exC3FinalSol.total_cost :=
  c4_alns_loop_never_regresses exC3V exC3Spots exC3D exOrcTrue 100 0 exC3FinalSol
    exC3FinalSol (by with_unfolding_all rfl)

/-- Claim C5 (code bug): with zero pickup spots supplied, the first ALNS
iteration draws its destroy count from the empty integer range
`[2, min 5 0]`, so `random.randint` raises and `solve` propagates the error
instead of returning the empty `OptimizationResult` the spec expects. -/
theorem c5_zero_spots_solve_raises :
    solveSolution exC3V [] exDistFn exFpos exOrcTrue =
      .error "empty range for randrange" ∧
    solve exC3V [] exDistFn exFpos exOrcTrue =
      .error "empty range for randrange" := by
  constructor <;> with_unfolding_all rfl

/-- Claim C10: with exactly one pickup spot the destroy-count range
`[2, min 5 1]` is empty, so every ALNS iteration raises instead of producing
a candidate, and `solve` fails rather than returning an
`OptimizationResult`. -/
theorem c10_single_spot_always_errors :
    ∀ (V vehiclesInput : List Vehicle) (spots : List PickupSpot)
      (D : String → String → ℚ) (distFn : ℚ × ℚ → ℚ × ℚ → ℚ) (fpos : ℚ × ℚ)
      (orc : Oracle) (i : Nat) (s : Solution),
      spots.length = 1 →
      apply_alns_iteration V spots D orc i s = .error "empty range for randrange" ∧
      solveSolution vehiclesInput spots distFn fpos orc =
        .error "empty range for randrange" ∧
      solve vehiclesInput spots distFn fpos orc =
        .error "empty range for randrange" := by
  intro V vin spots D distFn fpos orc i s h
  have hiter : ∀ (V' : List Vehicle) (D' : String → String → ℚ) (orc' : Oracle)
      (i' : Nat) (s' : Solution),
      apply_alns_iteration V' spots D' orc' i' s' =
        .error "empty range for randrange" := by
    intro V' D' orc' i' s'
    unfold apply_alns_iteration
    have hr : randint 2 (min 5 spots.length) (orc'.raw i') =
        .error "empty range for randrange" := by
      rw [h]
      rfl
    rw [hr]
    rfl
  have hloop : ∀ (V' : List Vehicle) (D' : String → String → ℚ) (orc' : Oracle)
      (n i' : Nat) (best : Solution),
      alns_loop V' spots D' orc' (n + 1) i' best =
        .error "empty range for randrange" := by
    intro V' D' orc' n i' best
    simp only [alns_loop]
    rw [hiter]
    rfl
  have hss : solveSolution vin spots distFn fpos orc =
      .error "empty range for randrange" := by
    simp only [solveSolution]
    rw [show (100 : Nat) = 99 + 1 from rfl]
    rw [hloop]
    rfl
  refine ⟨hiter V D orc i s, hss, ?_⟩
  simp only [solve]
  rw [hss]
  rfl

/-- Witness for C10: the single-spot failure at a concrete instance. -/
theorem c10_witness :
    apply_alns_iteration exC3V exOneSpot exC3D exOrcTrue 0 { assignments := [] } =
      .error "empty range for randrange" ∧
    solveSolution exC3V exOneSpot exDistFn exFpos exOrcTrue =
      .error "empty range for randrange" ∧
    solve exC3V exOneSpot exDistFn exFpos exOrcTrue =
      .error "empty range for randrange" :=
  c10_single_spot_always_errors exC3V exC3V exOneSpot exC3D exDistFn exFpos exOrcTrue 0
    { assignments := [] } rfl

/-- Claim C3 (code bug): when total capacity (50) is less than total demand
(100) the caller of `solve` silently receives an `OptimizationResult` built
from a solution that violates demand conservation (spot A has 50 of its 60
workers assigned, spot B none), with an empty unassigned-spot list — the
spec requires that such a solution never reach the caller. -/
theorem c3_result_built_from_invalid_solution :
    (exC3V.map (fun v => v.capacity)).sum < (exC3Spots.map (fun p => p.worker_count)).sum ∧
    solveSolution exC3V exC3Spots exDistFn exFpos exOrcTrue = .ok exC3FinalSol ∧
    ¬ DemandInv exC3Spots exC3FinalSol ∧
    solve exC3V exC3Spots exDistFn exFpos exOrcTrue = .ok exC3Result ∧
    exC3Result.unassigned_pickupspots = [] :=
  ⟨by decide, by with_unfolding_all rfl, by decide, by with_unfolding_all rfl, rfl⟩

/-! ## Spec-side nearest neighbour (for claim C6)

These definitions follow the specification's words (§4.2): repeatedly move
to the not-yet-visited spot with minimal cached distance from the current
position, first-encountered spot winning ties. -/

/-- The minimal cached distance from the current position among the
remaining spots (spec side). -/
def minDistSpec (f : String → ℚ) : List String → Option ℚ
  | [] => none
  | x :: xs => some (xs.foldr (fun y m => min (f y) m) (f x))

/-- Spec-side selection: the first remaining spot achieving the minimal
cached distance from the current position. -/
def specNearest (D : String → String → ℚ) (current : String) (l : List String) :
    Option (String × ℚ) :=
  match minDistSpec (D current) l with
  | none => none
  | some m => (l.find? (fun y => D current y == m)).map (fun y => (y, D current y))

/-- Spec-side tour loop. -/
def specGo (D : String → String → ℚ) : Nat → String → List String → ℚ
  | 0, current, _ => D "factory" current
  | fuel + 1, current, remaining =>
    match specNearest D current remaining with
    | none => D "factory" current
    | some (nearest, ndist) => ndist + specGo D fuel nearest (remaining.erase nearest)

/-- Spec-side closed tour length: factory, nearest-neighbour sequence of all
spots, factory; `0` for no spots. -/
def nnTourSpec (D : String → String → ℚ) (ids : List String) : ℚ :=
  if ids.isEmpty then 0 else specGo D ids.length "factory" ids

lemma foldr_min_init (f : String → ℚ) (ys : List String) (a b : ℚ) :
    min a (ys.foldr (fun y m => min (f y) m) b) =
      ys.foldr (fun y m => min (f y) m) (min a b) := by
  induction ys with
  | nil => rfl
  | cons y ys ih =>
    simp only [List.foldr_cons]
    rw [min_left_comm, ih]

lemma foldr_min_le_init (f : String → ℚ) (ys : List String) (b : ℚ) :
    ys.foldr (fun y m => min (f y) m) b ≤ b := by
  induction ys with
  | nil => exact le_rfl
  | cons y ys ih =>
    simp only [List.foldr_cons]
    exact le_trans (min_le_right _ _) ih

lemma specNearest_cons_foldl (D : String → String → ℚ) (cur : String) :
    ∀ (xs : List String) (b : String),
      specNearest D cur (b :: xs) =
        some (xs.foldl
          (fun p y => if D cur y < p.2 then (y, D cur y) else p) (b, D cur b)) := by
  intro xs
  induction xs with
  | nil =>
    intro b
    simp [specNearest, minDistSpec]
  | cons y ys ih =>
    intro b
    have hstep :
        (fun p z => if D cur z < p.2 then (z, D cur z) else p) (b, D cur b) y =
          ((if D cur y < D cur b then y else b : String),
           D cur (if D cur y < D cur b then y else b)) := by
      by_cases hyb : D cur y < D cur b <;> simp [hyb]
    have hrhs :
        ((y :: ys).foldl (fun p z => if D cur z < p.2 then (z, D cur z) else p)
            (b, D cur b)) =
          ys.foldl (fun p z => if D cur z < p.2 then (z, D cur z) else p)
            ((if D cur y < D cur b then y else b : String),
             D cur (if D cur y < D cur b then y else b)) := by
      simp only [List.foldl_cons, hstep]
    rw [hrhs, ← ih]
    -- it remains to show the spec selection drops the loser of the head duel
    set c : String := if D cur y < D cur b then y else b with hc
    have hfc : D cur c = min (D cur y) (D cur b) := by
      by_cases hyb : D cur y < D cur b
      · rw [hc, if_pos hyb, min_eq_left (le_of_lt hyb)]
      · rw [hc, if_neg hyb, min_eq_right (le_of_not_lt hyb)]
    have hmin :
        minDistSpec (D cur) (b :: y :: ys) = minDistSpec (D cur) (c :: ys) := by
      simp only [minDistSpec, List.foldr_cons]
      rw [foldr_min_init, ← hfc]
    have hm_le : ∀ m, minDistSpec (D cur) (c :: ys) = some m → m ≤ D cur c := by
      intro m hm
      simp only [minDistSpec, Option.some.injEq] at hm
      exact hm ▸ foldr_min_le_init (D cur) ys (D cur c)
    simp only [specNearest, hmin]
    cases hmd : minDistSpec (D cur) (c :: ys) with
    | none => simp [minDistSpec] at hmd
    | some m =>
      dsimp only
      have hmc : m ≤ D cur c := hm_le m hmd
      by_cases hyb : D cur y < D cur b
      · -- the head b loses: it cannot attain the minimum
        have hcy : c = y := by rw [hc, if_pos hyb]
        have hmb : m < D cur b := lt_of_le_of_lt (hcy ▸ hmc) hyb
        have hbm : ¬ ((D cur b == m) = true) := by
          simp only [beq_iff_eq]
          exact ne_of_gt hmb
        rw [@List.find?_cons_of_neg String (fun z => D cur z == m) b (y :: ys) hbm, hcy]
      · -- the head b survives; y (not cheaper than b) cannot beat it
        have hcb : c = b := by rw [hc, if_neg hyb]
        by_cases hbm : (D cur b == m) = true
        · rw [@List.find?_cons_of_pos String (fun z => D cur z == m) b (y :: ys) hbm, hcb,
            @List.find?_cons_of_pos String (fun z => D cur z == m) b ys hbm]
        · have hmb : m < D cur b := by
            rcases lt_or_eq_of_le (hcb ▸ hmc) with hlt | hEq
            · exact hlt
            · exact absurd (by simp [beq_iff_eq, hEq]) hbm
          have hym : ¬ ((D cur y == m) = true) := by
            simp only [beq_iff_eq]
            exact ne_of_gt (lt_of_lt_of_le hmb (le_of_not_lt hyb))
          rw [@List.find?_cons_of_neg String (fun z => D cur z == m) b (y :: ys) hbm,
            @List.find?_cons_of_neg String (fun z => D cur z == m) y ys hym, hcb,
            @List.find?_cons_of_neg String (fun z => D cur z == m) b ys hbm]

lemma pickNearest_eq_specNearest (D : String → String → ℚ) (cur : String)
    (l : List String) : pickNearest D cur l = specNearest D cur l := by
  cases l with
  | nil => rfl
  | cons x xs => rw [pickNearest, specNearest_cons_foldl]

lemma nnGo_eq_specGo (D : String → String → ℚ) :
    ∀ (fuel : Nat) (cur : String) (remaining : List String),
      nnGo D fuel cur remaining = specGo D fuel cur remaining := by
  intro fuel
  induction fuel with
  | zero => intro cur remaining; rfl
  | succ fuel ih =>
    intro cur remaining
    simp only [nnGo, specGo, pickNearest_eq_specNearest]
    cases specNearest D cur remaining with
    | none => rfl
    | some p => cases p with | mk nearest ndist => simp only [ih]

/-- Claim C6: for every cached-distance lookup and spot-id list, the route
distance evaluator computes exactly the spec's nearest-neighbour closed
tour — start at the factory, repeatedly move to the first not-yet-visited
spot of minimal cached distance from the current position, finish with the
cached factory leg of the last spot — and returns 0 for an empty list.
Determinism on repeated calls is immediate because the embedded evaluator
is a pure function of the cache and the id list. -/
theorem c6_route_distance_is_nearest_neighbour :
    (∀ (D : String → String → ℚ) (ids : List String),
      calculate_route_distance D ids = nnTourSpec D ids) ∧
    (∀ (D : String → String → ℚ), calculate_route_distance D [] = 0) :=
  ⟨fun D ids => by
      unfold calculate_route_distance nnTourSpec
      rw [nnGo_eq_specGo],
    fun D => rfl⟩

/-! ## Claim C7: the solution evaluator -/

/-- The vehicles with at least one assignment in `s`, in vehicle-list
order. -/
def usedVehicles (V : List Vehicle) (s : Solution) : List Vehicle :=
  V.filter (fun v => !(routeOf s v.id).isEmpty)

/-- The nearest-neighbour route distance of one vehicle over its distinct
assigned spot ids. -/
def vehicleRouteDistance (D : String → String → ℚ) (s : Solution)
    (v : Vehicle) : ℚ :=
  calculate_route_distance D
    (distinctL ((routeOf s v.id).map (fun a => a.pickupspot_id)))

lemma eval_foldl_acc (D : String → String → ℚ) (s : Solution) :
    ∀ (V : List Vehicle) (acc : ℚ × ℚ × Nat),
      V.foldl (evalStep D s) acc =
        (acc.1 + ((usedVehicles V s).map
            (fun v => vehicleRouteDistance D s v * v.cost_per_km)).sum,
         acc.2.1 + ((usedVehicles V s).map (vehicleRouteDistance D s)).sum,
         acc.2.2 + (usedVehicles V s).length) := by
  intro V
  induction V with
  | nil =>
    intro acc
    simp [usedVehicles]
  | cons v V ih =>
    intro acc
    by_cases hv : (routeOf s v.id).isEmpty = true
    · have hstep : evalStep D s acc v = acc := by
        simp [evalStep, hv]
      have hused : usedVehicles (v :: V) s = usedVehicles V s := by
        simp [usedVehicles, List.filter_cons, hv]
      rw [List.foldl_cons, hstep, hused]
      exact ih acc
    · have hstep : evalStep D s acc v =
          (acc.1 + vehicleRouteDistance D s v * v.cost_per_km,
           acc.2.1 + vehicleRouteDistance D s v, acc.2.2 + 1) := by
        simp [evalStep, hv, vehicleRouteDistance]
      have hused : usedVehicles (v :: V) s = v :: usedVehicles V s := by
        simp [usedVehicles, List.filter_cons, hv]
      rw [List.foldl_cons, hstep, hused, ih]
      simp only [List.map_cons, List.sum_cons, List.length_cons, Prod.mk.injEq]
      refine ⟨by ring, by ring, by omega⟩

/-- Claim C7: the evaluator sets `vehicles_used` to the number of vehicles
with at least one assignment, sets `total_distance` and `total_cost` to the
sums over those vehicles of the nearest-neighbour route distance over the
vehicle's distinct assigned spot ids and of that distance times the
vehicle's cost-per-km, and sets `fitness` to `total_cost` plus 1000 per
vehicle used; the assignment list is untouched.  The hypothesis restricts
to solutions whose assignments reference known vehicles, which is every
solution the solver builds (Python raises `KeyError` otherwise). -/
theorem c7_evaluator_spec (V : List Vehicle) (D : String → String → ℚ)
    (s : Solution) (_hwf : ∀ a ∈ s.assignments, ∃ v ∈ V, a.vehicle_id = v.id) :
    (evaluate_solution V D s).assignments = s.assignments ∧
    (evaluate_solution V D s).vehicles_used = (usedVehicles V s).length ∧
    (evaluate_solution V D s).total_distance =
      ((usedVehicles V s).map (vehicleRouteDistance D s)).sum ∧
    (evaluate_solution V D s).total_cost =
      ((usedVehicles V s).map
        (fun v => vehicleRouteDistance D s v * v.cost_per_km)).sum ∧
    (evaluate_solution V D s).fitness =
      (evaluate_solution V D s).total_cost +
        ((evaluate_solution V D s).vehicles_used : ℚ) * 1000 := by
  refine ⟨rfl, ?_, ?_, ?_, rfl⟩
  · show (V.foldl (evalStep D s) (0, 0, 0)).2.2 = _
    rw [eval_foldl_acc]
    exact Nat.zero_add _
  · show (V.foldl (evalStep D s) (0, 0, 0)).2.1 = _
    rw [eval_foldl_acc]
    exact zero_add _
  · show (V.foldl (evalStep D s) (0, 0, 0)).1 = _
    rw [eval_foldl_acc]
    exact zero_add _

/-- Witness for C7: the evaluator equalities at a concrete two-vehicle
solution. -/
theorem c7_witness :
    (evaluate_solution exC2V exC2D exC2In).assignments = exC2In.assignments ∧
    (evaluate_solution exC2V exC2D exC2In).vehicles_used =
      (usedVehicles exC2V exC2In).length ∧
    (evaluate_solution exC2V exC2D exC2In).total_distance =
      ((usedVehicles exC2V exC2In).map (vehicleRouteDistance exC2D exC2In)).sum ∧
    (evaluate_solution exC2V exC2D exC2In).total_cost =
      ((usedVehicles exC2V exC2In).map
        (fun v => vehicleRouteDistance exC2D exC2In v * v.cost_per_km)).sum ∧
    (evaluate_solution exC2V exC2D exC2In).fitness =
      (evaluate_solution exC2V exC2D exC2In).total_cost +
        ((evaluate_solution exC2V exC2D exC2In).vehicles_used : ℚ) * 1000 :=
  c7_evaluator_spec exC2V exC2D exC2In (by decide)

/-! ## Claim C8: the distance cache -/

lemma dictGet_append_right (l1 l2 : DistCache) (k : DistKey)
    (h : ∀ e ∈ l1, e.1 ≠ k) : dictGet (l1 ++ l2) k = dictGet l2 k := by
  induction l1 with
  | nil => rfl
  | cons e l1 ih =>
    have he : ¬ ((e.1 == k) = true) := by
      simp only [beq_iff_eq]
      exact h e (List.mem_cons_self e l1)
    simp only [List.cons_append, dictGet,
      @List.find?_cons_of_neg (DistKey × ℚ) (fun x => x.1 == k) e (l1 ++ l2) he]
    exact ih (fun x hx => h x (List.mem_cons_of_mem e hx))

lemma hasKey_append_right (l1 l2 : DistCache) (k : DistKey)
    (h : ∀ e ∈ l1, e.1 ≠ k) : hasKey (l1 ++ l2) k = hasKey l2 k := by
  induction l1 with
  | nil => rfl
  | cons e l1 ih =>
    have he : ¬ ((e.1 == k) = true) := by
      simp only [beq_iff_eq]
      exact h e (List.mem_cons_self e l1)
    simp only [List.cons_append, hasKey,
      @List.find?_cons_of_neg (DistKey × ℚ) (fun x => x.1 == k) e (l1 ++ l2) he]
    exact ih (fun x hx => h x (List.mem_cons_of_mem e hx))

lemma hasKey_append_left (l1 l2 : DistCache) (k : DistKey)
    (h : hasKey l1 k = true) : hasKey (l1 ++ l2) k = true := by
  unfold hasKey at h ⊢
  cases hf : l1.find? (fun e => e.1 == k) with
  | none => rw [hf] at h; simp at h
  | some e =>
    rw [List.find?_append, hf]
    rfl

lemma dictGet_append_left (l1 l2 : DistCache) (k : DistKey)
    (h : hasKey l1 k = true) : dictGet (l1 ++ l2) k = dictGet l1 k := by
  unfold hasKey at h
  cases hf : l1.find? (fun e => e.1 == k) with
  | none => rw [hf] at h; simp at h
  | some e =>
    unfold dictGet
    rw [List.find?_append, hf]
    rfl

lemma dictGet_cons_ne (e : DistKey × ℚ) (l : DistCache) (k : DistKey)
    (h : e.1 ≠ k) : dictGet (e :: l) k = dictGet l k := by
  unfold dictGet
  rw [@List.find?_cons_of_neg (DistKey × ℚ) (fun x => x.1 == k) e l (by simpa using h)]

lemma dictGet_cons_eq (e : DistKey × ℚ) (l : DistCache) (k : DistKey)
    (h : e.1 = k) : dictGet (e :: l) k = e.2 := by
  unfold dictGet
  rw [@List.find?_cons_of_pos (DistKey × ℚ) (fun x => x.1 == k) e l (by simpa using h)]

lemma hasKey_cons_ne (e : DistKey × ℚ) (l : DistCache) (k : DistKey)
    (h : e.1 ≠ k) : hasKey (e :: l) k = hasKey l k := by
  unfold hasKey
  rw [@List.find?_cons_of_neg (DistKey × ℚ) (fun x => x.1 == k) e l (by simpa using h)]

lemma hasKey_cons_eq (e : DistKey × ℚ) (l : DistCache) (k : DistKey)
    (h : e.1 = k) : hasKey (e :: l) k = true := by
  unfold hasKey
  rw [@List.find?_cons_of_pos (DistKey × ℚ) (fun x => x.1 == k) e l (by simpa using h)]
  rfl

/-- Every key of the factory block has `"factory"` as its first component. -/
lemma factoryEntries_key (distFn : ℚ × ℚ → ℚ × ℚ → ℚ) (fpos : ℚ × ℚ)
    (spots : List PickupSpot) (e : DistKey × ℚ)
    (he : e ∈ factoryEntries distFn fpos spots) :
    ∃ p ∈ spots, e.1 = ("factory", p.id) := by
  unfold factoryEntries at he
  rcases List.mem_map.mp he with ⟨p, hp, rfl⟩
  exact ⟨p, hp, rfl⟩

/-- Every key of the pair block pairs two spot ids. -/
lemma pairEntries_key (distFn : ℚ × ℚ → ℚ × ℚ → ℚ) :
    ∀ (spots : List PickupSpot) (e : DistKey × ℚ),
      e ∈ pairEntries distFn spots →
      ∃ a ∈ spots, ∃ b ∈ spots, e.1 = (a.id, b.id) := by
  intro spots
  induction spots with
  | nil => intro e he; simp [pairEntries] at he
  | cons r rest ih =>
    intro e he
    unfold pairEntries at he
    rcases List.mem_append.mp he with hL | hR
    · rcases List.mem_flatten.mp hL with ⟨blk, hblk, heblk⟩
      rcases List.mem_map.mp hblk with ⟨q, hq, rfl⟩
      rcases List.mem_cons.mp heblk with h1 | h1'
      · exact ⟨r, List.mem_cons_self r rest, q, List.mem_cons_of_mem r hq,
          by rw [h1]⟩
      · rcases List.mem_cons.mp h1' with h1 | hnil
        · exact ⟨q, List.mem_cons_of_mem r hq, r, List.mem_cons_self r rest,
            by rw [h1]⟩
        · simp at hnil
    · rcases ih e hR with ⟨a, ha, b, hb, hab⟩
      exact ⟨a, List.mem_cons_of_mem r ha, b, List.mem_cons_of_mem r hb, hab⟩

/-- The per-head block of entries that `pairEntries` writes for spot `r`
against every later spot. -/
def pairBlock (distFn : ℚ × ℚ → ℚ × ℚ → ℚ) (r : PickupSpot)
    (rest : List PickupSpot) : DistCache :=
  (rest.map (fun q =>
    [((r.id, q.id), distFn (r.latitude, r.longitude) (q.latitude, q.longitude)),
     ((q.id, r.id), distFn (r.latitude, r.longitude) (q.latitude, q.longitude))])).flatten

lemma pairEntries_cons (distFn : ℚ × ℚ → ℚ × ℚ → ℚ) (r : PickupSpot)
    (rest : List PickupSpot) :
    pairEntries distFn (r :: rest) = pairBlock distFn r rest ++ pairEntries distFn rest :=
  rfl

lemma pairBlock_cons (distFn : ℚ × ℚ → ℚ × ℚ → ℚ) (r x : PickupSpot)
    (rest : List PickupSpot) :
    pairBlock distFn r (x :: rest) =
      ((r.id, x.id), distFn (r.latitude, r.longitude) (x.latitude, x.longitude)) ::
      ((x.id, r.id), distFn (r.latitude, r.longitude) (x.latitude, x.longitude)) ::
      pairBlock distFn r rest := by
  simp [pairBlock]

/-- Lookups of `(r.id, qid)` and `(qid, r.id)` in the block of `r` agree (both
find the entry pair written for the first later spot of id `qid`, or both
miss), and both keys are present once `qid` occurs among the later ids. -/
lemma pairBlock_lookup (distFn : ℚ × ℚ → ℚ × ℚ → ℚ) (r : PickupSpot) :
    ∀ (rest : List PickupSpot) (qid : String), qid ≠ r.id →
      dictGet (pairBlock distFn r rest) (r.id, qid) =
        dictGet (pairBlock distFn r rest) (qid, r.id) ∧
      (qid ∈ rest.map (fun q => q.id) →
        hasKey (pairBlock distFn r rest) (r.id, qid) = true ∧
        hasKey (pairBlock distFn r rest) (qid, r.id) = true) := by
  intro rest
  induction rest with
  | nil =>
    intro qid hq
    refine ⟨rfl, ?_⟩
    intro hmem
    simp at hmem
  | cons x rest ih =>
    intro qid hq
    rw [pairBlock_cons]
    by_cases hx : x.id = qid
    · have e1 : (((r.id, x.id),
          distFn (r.latitude, r.longitude) (x.latitude, x.longitude)) :
            DistKey × ℚ).1 = ((r.id, qid) : DistKey) := by
        simp [hx]
      have e2ne : (((r.id, x.id),
          distFn (r.latitude, r.longitude) (x.latitude, x.longitude)) :
            DistKey × ℚ).1 ≠ ((qid, r.id) : DistKey) := by
        simp
        intro h
        exact absurd h.symm hq
      have e3 : (((x.id, r.id),
          distFn (r.latitude, r.longitude) (x.latitude, x.longitude)) :
            DistKey × ℚ).1 = ((qid, r.id) : DistKey) := by
        simp [hx]
      refine ⟨?_, fun _ => ⟨?_, ?_⟩⟩
      · rw [dictGet_cons_eq _ _ _ e1, dictGet_cons_ne _ _ _ e2ne,
          dictGet_cons_eq _ _ _ e3]
      · rw [hasKey_cons_eq _ _ _ e1]
      · rw [hasKey_cons_ne _ _ _ e2ne, hasKey_cons_eq _ _ _ e3]
    · have n1 : (((r.id, x.id),
          distFn (r.latitude, r.longitude) (x.latitude, x.longitude)) :
            DistKey × ℚ).1 ≠ ((r.id, qid) : DistKey) := by
        simp
        intro h
        exact absurd h hx
      have n2 : (((x.id, r.id),
          distFn (r.latitude, r.longitude) (x.latitude, x.longitude)) :
            DistKey × ℚ).1 ≠ ((r.id, qid) : DistKey) := by
        simp
        intro _ h
        exact absurd h.symm hq
      have n3 : (((r.id, x.id),
          distFn (r.latitude, r.longitude) (x.latitude, x.longitude)) :
            DistKey × ℚ).1 ≠ ((qid, r.id) : DistKey) := by
        simp
        intro h
        exact absurd h.symm hq
      have n4 : (((x.id, r.id),
          distFn (r.latitude, r.longitude) (x.latitude, x.longitude)) :
            DistKey × ℚ).1 ≠ ((qid, r.id) : DistKey) := by
        simp
        intro h
        exact absurd h hx
      rcases ih qid hq with ⟨ihEq, ihMem⟩
      refine ⟨?_, ?_⟩
      · rw [dictGet_cons_ne _ _ _ n1, dictGet_cons_ne _ _ _ n2,
          dictGet_cons_ne _ _ _ n3, dictGet_cons_ne _ _ _ n4]
        exact ihEq
      · intro hmem
        have hmem' : qid ∈ rest.map (fun q => q.id) := by
          rcases List.mem_map.mp hmem with ⟨z, hz, hzid⟩
          rcases List.mem_cons.mp hz with rfl | hz'
          · exact absurd hzid hx
          · exact List.mem_map.mpr ⟨z, hz', hzid⟩
        rcases ihMem hmem' with ⟨ih1, ih2⟩
        refine ⟨?_, ?_⟩
        · rw [hasKey_cons_ne _ _ _ n1, hasKey_cons_ne _ _ _ n2]
          exact ih1
        · rw [hasKey_cons_ne _ _ _ n3, hasKey_cons_ne _ _ _ n4]
          exact ih2

lemma hasKey_true_of_mem (l : DistCache) (k : DistKey)
    (h : ∃ e ∈ l, e.1 = k) : hasKey l k = true := by
  induction l with
  | nil => rcases h with ⟨e, he, _⟩; simp at he
  | cons f l ih =>
    by_cases hf : f.1 = k
    · exact hasKey_cons_eq f l k hf
    · rw [hasKey_cons_ne f l k hf]
      rcases h with ⟨e, he, hek⟩
      rcases List.mem_cons.mp he with rfl | he'
      · exact absurd hek hf
      · exact ih ⟨e, he', hek⟩

lemma hasKey_false_of_forall (l : DistCache) (k : DistKey)
    (h : ∀ e ∈ l, e.1 ≠ k) : hasKey l k = false := by
  induction l with
  | nil => rfl
  | cons f l ih =>
    rw [hasKey_cons_ne f l k (h f (List.mem_cons_self f l))]
    exact ih (fun e he => h e (List.mem_cons_of_mem f he))

/-- The keys of the block of `r` all have `r.id` as a component. -/
lemma pairBlock_key (distFn : ℚ × ℚ → ℚ × ℚ → ℚ) (r : PickupSpot)
    (rest : List PickupSpot) (e : DistKey × ℚ) (he : e ∈ pairBlock distFn r rest) :
    ∃ x ∈ rest, e.1 = (r.id, x.id) ∨ e.1 = (x.id, r.id) := by
  unfold pairBlock at he
  rcases List.mem_flatten.mp he with ⟨blk, hblk, heblk⟩
  rcases List.mem_map.mp hblk with ⟨x, hx, rfl⟩
  rcases List.mem_cons.mp heblk with h1 | h1'
  · exact ⟨x, hx, Or.inl (by rw [h1])⟩
  · rcases List.mem_cons.mp h1' with h1 | hnil
    · exact ⟨x, hx, Or.inr (by rw [h1])⟩
    · simp at hnil

/-- Symmetry over the spot-pair block: with pairwise-distinct spot ids,
both directed keys of any two distinct spots are present and agree. -/
lemma pairEntries_symm (distFn : ℚ × ℚ → ℚ × ℚ → ℚ) :
    ∀ (spots : List PickupSpot), (spots.map (fun z => z.id)).Nodup →
      ∀ p q : PickupSpot, p ∈ spots → q ∈ spots → p.id ≠ q.id →
      hasKey (pairEntries distFn spots) (p.id, q.id) = true ∧
      dictGet (pairEntries distFn spots) (p.id, q.id) =
        dictGet (pairEntries distFn spots) (q.id, p.id) := by
  intro spots
  induction spots with
  | nil => intro _ p q hp _ _; simp at hp
  | cons r rest ih =>
    intro hnodup p q hp hq hpq
    rw [List.map_cons, List.nodup_cons] at hnodup
    rw [pairEntries_cons]
    rcases List.mem_cons.mp hp with rfl | hp'
    · rcases List.mem_cons.mp hq with rfl | hq'
      · exact absurd rfl hpq
      · have hqid : q.id ≠ p.id := fun h => hpq h.symm
        rcases pairBlock_lookup distFn p rest q.id hqid with ⟨hbe, hbm⟩
        rcases hbm (List.mem_map.mpr ⟨q, hq', rfl⟩) with ⟨hk1, hk2⟩
        refine ⟨hasKey_append_left _ _ _ hk1, ?_⟩
        rw [dictGet_append_left _ _ _ hk1, dictGet_append_left _ _ _ hk2]
        exact hbe
    · rcases List.mem_cons.mp hq with rfl | hq'
      · rcases pairBlock_lookup distFn q rest p.id hpq with ⟨hbe, hbm⟩
        rcases hbm (List.mem_map.mpr ⟨p, hp', rfl⟩) with ⟨hk1, hk2⟩
        refine ⟨hasKey_append_left _ _ _ hk2, ?_⟩
        rw [dictGet_append_left _ _ _ hk2, dictGet_append_left _ _ _ hk1]
        exact hbe.symm
      · have hpr : p.id ≠ r.id := by
          intro h
          exact hnodup.1 (h ▸ List.mem_map.mpr ⟨p, hp', rfl⟩)
        have hqr : q.id ≠ r.id := by
          intro h
          exact hnodup.1 (h ▸ List.mem_map.mpr ⟨q, hq', rfl⟩)
        have hskip1 : ∀ e ∈ pairBlock distFn r rest,
            e.1 ≠ ((p.id, q.id) : DistKey) := by
          intro e he
          rcases pairBlock_key distFn r rest e he with ⟨x, _, hx1 | hx1⟩ <;>
            rw [hx1] <;> intro hEq <;>
            rcases Prod.mk.injEq .. ▸ hEq with ⟨hEq1, hEq2⟩
          · exact hpr hEq1.symm
          · exact hqr hEq2.symm
        have hskip2 : ∀ e ∈ pairBlock distFn r rest,
            e.1 ≠ ((q.id, p.id) : DistKey) := by
          intro e he
          rcases pairBlock_key distFn r rest e he with ⟨x, _, hx1 | hx1⟩ <;>
            rw [hx1] <;> intro hEq <;>
            rcases Prod.mk.injEq .. ▸ hEq with ⟨hEq1, hEq2⟩
          · exact hqr hEq1.symm
          · exact hpr hEq2.symm
        rw [hasKey_append_right _ _ _ hskip1, dictGet_append_right _ _ _ hskip1,
          dictGet_append_right _ _ _ hskip2]
        exact ih hnodup.2 p q hp' hq' hpq

/-- Claim C8 (amended): after precomputation, with pairwise-distinct spot
ids none of which is the reserved name "factory": for every two distinct
spots both directed keys are present and map to the identical value; for
every spot the key (factory, spot) is present but the reverse key
(spot, factory) is absent — the cache is symmetric over the spot pairs
only, and a reverse factory lookup falls back to the default 0. -/
theorem c8_amended_cache_symmetry
    (distFn : ℚ × ℚ → ℚ × ℚ → ℚ) (fpos : ℚ × ℚ) (spots : List PickupSpot)
    (hnodup : (spots.map (fun z => z.id)).Nodup)
    (hfac : ∀ r ∈ spots, r.id ≠ "factory") :
    (∀ p ∈ spots, ∀ q ∈ spots, p.id ≠ q.id →
      hasKey (compute_distances distFn fpos spots) (p.id, q.id) = true ∧
      dictGet (compute_distances distFn fpos spots) (p.id, q.id) =
        dictGet (compute_distances distFn fpos spots) (q.id, p.id)) ∧
    (∀ p ∈ spots,
      hasKey (compute_distances distFn fpos spots) ("factory", p.id) = true ∧
      hasKey (compute_distances distFn fpos spots) (p.id, "factory") = false) := by
  constructor
  · intro p hp q hq hpq
    have hskip1 : ∀ e ∈ factoryEntries distFn fpos spots,
        e.1 ≠ ((p.id, q.id) : DistKey) := by
      intro e he
      rcases factoryEntries_key distFn fpos spots e he with ⟨z, _, hez⟩
      rw [hez]
      intro hEq
      rcases Prod.mk.injEq .. ▸ hEq with ⟨hEq1, _⟩
      exact hfac p hp hEq1.symm
    have hskip2 : ∀ e ∈ factoryEntries distFn fpos spots,
        e.1 ≠ ((q.id, p.id) : DistKey) := by
      intro e he
      rcases factoryEntries_key distFn fpos spots e he with ⟨z, _, hez⟩
      rw [hez]
      intro hEq
      rcases Prod.mk.injEq .. ▸ hEq with ⟨hEq1, _⟩
      exact hfac q hq hEq1.symm
    unfold compute_distances
    rw [hasKey_append_right _ _ _ hskip1, dictGet_append_right _ _ _ hskip1,
      dictGet_append_right _ _ _ hskip2]
    exact pairEntries_symm distFn spots hnodup p q hp hq hpq
  · intro p hp
    constructor
    · unfold compute_distances
      apply hasKey_append_left
      exact hasKey_true_of_mem _ _
        ⟨(("factory", p.id), distFn fpos (p.latitude, p.longitude)),
          List.mem_map.mpr ⟨p, hp, rfl⟩, rfl⟩
    · apply hasKey_false_of_forall
      intro e he
      rcases List.mem_append.mp he with hF | hP
      · rcases factoryEntries_key distFn fpos spots e hF with ⟨z, _, hez⟩
        rw [hez]
        intro hEq
        rcases Prod.mk.injEq .. ▸ hEq with ⟨hEq1, _⟩
        exact hfac p hp hEq1.symm
      · rcases pairEntries_key distFn spots e hP with ⟨a, _, b, hb, hab⟩
        rw [hab]
        intro hEq
        rcases Prod.mk.injEq .. ▸ hEq with ⟨_, hEq2⟩
        exact hfac b hb hEq2

/-- A one-spot cache built from a constant distance provider returning 7. -/
def exC8Cache : DistCache :=
  compute_distances (fun _ _ => 7) exFpos [⟨"S", "S", 0, 1, 5⟩]

/-- Claim C8 (counterexample): the cache is not symmetric over the covered
factory-spot pair: only the directed key (factory, S) is stored; the
reverse key (S, factory) is absent and its default lookup 0 differs from
the stored 7 km. -/
theorem c8_counterexample :
    hasKey exC8Cache ("factory", "S") = true ∧
    hasKey exC8Cache ("S", "factory") = false ∧
    dictGet exC8Cache ("factory", "S") = 7 ∧
    dictGet exC8Cache ("S", "factory") = 0 ∧
    ¬ (dictGet exC8Cache ("S", "factory") = dictGet exC8Cache ("factory", "S")) :=
  ⟨rfl, rfl, rfl, rfl, by decide⟩

/-- Witness for C8: the amended symmetry statement at the concrete two-spot
instance. -/
theorem c8_witness :
    (hasKey (compute_distances exDistFn exFpos exC3Spots) ("A", "B") = true ∧
      dictGet (compute_distances exDistFn exFpos exC3Spots) ("A", "B") =
        dictGet (compute_distances exDistFn exFpos exC3Spots) ("B", "A")) ∧
    (hasKey (compute_distances exDistFn exFpos exC3Spots) ("factory", "A") = true ∧
      hasKey (compute_distances exDistFn exFpos exC3Spots) ("A", "factory") = false) := by
  have h := c8_amended_cache_symmetry exDistFn exFpos exC3Spots (by decide) (by decide)
  exact ⟨h.1 ⟨"A", "A", 0, 1, 60⟩ (by decide) ⟨"B", "B", 1, 0, 40⟩ (by decide) (by decide),
    h.2 ⟨"A", "A", 0, 1, 60⟩ (by decide)⟩

/-! ## Claim C9: greedy constructor bounds -/

/-- The declared worker count carried by a working spot list under one id
(several entries share an id only transiently, never in the original
input). -/
def spotCount (spots : List PickupSpot) (pid : String) : Nat :=
  ((spots.filter (fun z => z.id == pid)).map (fun z => z.worker_count)).sum

lemma assignedOf_cons (a : Assignment) (asgs : List Assignment) (pid : String) :
    assignedOf (a :: asgs) pid =
      (if a.pickupspot_id = pid then a.workers else 0) + assignedOf asgs pid := by
  by_cases h : a.pickupspot_id = pid <;>
    simp [assignedOf, List.filter_cons, h]

lemma assignedOf_append (l1 l2 : List Assignment) (pid : String) :
    assignedOf (l1 ++ l2) pid = assignedOf l1 pid + assignedOf l2 pid := by
  simp [assignedOf, List.filter_append]

lemma loadOf_cons (a : Assignment) (asgs : List Assignment) (vid : String) :
    loadOf (a :: asgs) vid =
      (if a.vehicle_id = vid then a.workers else 0) + loadOf asgs vid := by
  by_cases h : a.vehicle_id = vid <;>
    simp [loadOf, List.filter_cons, h]

lemma loadOf_append (l1 l2 : List Assignment) (vid : String) :
    loadOf (l1 ++ l2) vid = loadOf l1 vid + loadOf l2 vid := by
  simp [loadOf, List.filter_append]

lemma loadOf_eq_zero (l : List Assignment) (vid : String)
    (h : ∀ a ∈ l, a.vehicle_id ≠ vid) : loadOf l vid = 0 := by
  induction l with
  | nil => rfl
  | cons a l ih =>
    rw [loadOf_cons, if_neg (h a (List.mem_cons_self a l)), Nat.zero_add]
    exact ih (fun x hx => h x (List.mem_cons_of_mem a hx))

lemma loadOf_of_all_eq (l : List Assignment) (vid : String)
    (h : ∀ a ∈ l, a.vehicle_id = vid) :
    loadOf l vid = (l.map (fun a => a.workers)).sum := by
  induction l with
  | nil => rfl
  | cons a l ih =>
    rw [loadOf_cons, if_pos (h a (List.mem_cons_self a l)), List.map_cons,
      List.sum_cons, ih (fun x hx => h x (List.mem_cons_of_mem a hx))]

lemma spotCount_cons (z : PickupSpot) (spots : List PickupSpot) (pid : String) :
    spotCount (z :: spots) pid =
      (if z.id = pid then z.worker_count else 0) + spotCount spots pid := by
  by_cases h : z.id = pid <;>
    simp [spotCount, List.filter_cons, h]

lemma spotCount_eq_zero (spots : List PickupSpot) (pid : String)
    (h : pid ∉ spots.map (fun z => z.id)) : spotCount spots pid = 0 := by
  induction spots with
  | nil => rfl
  | cons z spots ih =>
    rw [List.map_cons] at h
    rw [spotCount_cons,
      if_neg (fun hz => h (List.mem_cons.mpr (Or.inl hz.symm))), Nat.zero_add]
    exact ih (fun hz => h (List.mem_cons_of_mem _ hz))

lemma spotCount_eq_of_nodup (spots : List PickupSpot) (p : PickupSpot)
    (hnodup : (spots.map (fun z => z.id)).Nodup) (hp : p ∈ spots) :
    spotCount spots p.id = p.worker_count := by
  induction spots with
  | nil => simp at hp
  | cons z spots ih =>
    rw [List.map_cons, List.nodup_cons] at hnodup
    rcases List.mem_cons.mp hp with rfl | hp'
    · rw [spotCount_cons, if_pos rfl, spotCount_eq_zero spots p.id hnodup.1]
      exact Nat.add_zero _
    · have hzp : z.id ≠ p.id := by
        intro h
        exact hnodup.1 (h ▸ List.mem_map.mpr ⟨p, hp', rfl⟩)
      rw [spotCount_cons, if_neg hzp, ih hnodup.2 hp']
      exact Nat.zero_add _

/-- Filling one vehicle never exceeds its capacity: the spots it is handed
are taken whole while they fit, and the one split assignment tops the load
up to exactly the capacity. -/
lemma greedy_fill_load (v : Vehicle) :
    ∀ (spots : List PickupSpot) (load : Nat), load ≤ v.capacity →
      load + ((greedy_fill_vehicle v load spots).1.map (fun a => a.workers)).sum ≤
        v.capacity := by
  intro spots
  induction spots with
  | nil =>
    intro load h
    simpa [greedy_fill_vehicle]
  | cons p ps ih =>
    intro load h
    by_cases h1 : load + p.worker_count ≤ v.capacity
    · simp only [greedy_fill_vehicle, if_pos h1, List.map_cons, List.sum_cons]
      have := ih (load + p.worker_count) h1
      omega
    · by_cases h2 : load < v.capacity
      · simp only [greedy_fill_vehicle, if_neg h1, if_pos h2, List.map_cons,
          List.sum_cons]
        have hcap : load + (v.capacity - load) ≤ v.capacity := by omega
        have := ih (load + (v.capacity - load)) hcap
        omega
      · simp only [greedy_fill_vehicle, if_neg h1, if_neg h2]
        exact ih load h

/-- Every assignment written while filling vehicle `v` carries `v.id`. -/
lemma greedy_fill_vehicle_id (v : Vehicle) :
    ∀ (spots : List PickupSpot) (load : Nat) (a : Assignment),
      a ∈ (greedy_fill_vehicle v load spots).1 → a.vehicle_id = v.id := by
  intro spots
  induction spots with
  | nil =>
    intro load a ha
    simp [greedy_fill_vehicle] at ha
  | cons p ps ih =>
    intro load a ha
    by_cases h1 : load + p.worker_count ≤ v.capacity
    · simp only [greedy_fill_vehicle, if_pos h1] at ha
      rcases List.mem_cons.mp ha with rfl | ha'
      · rfl
      · exact ih (load + p.worker_count) a ha'
    · by_cases h2 : load < v.capacity
      · simp only [greedy_fill_vehicle, if_neg h1, if_pos h2] at ha
        rcases List.mem_cons.mp ha with rfl | ha'
        · rfl
        · exact ih (load + (v.capacity - load)) a ha'
      · simp only [greedy_fill_vehicle, if_neg h1, if_neg h2] at ha
        exact ih load a ha

/-- Worker bookkeeping of one vehicle fill: per spot id, what was assigned
plus what is carried forward (including the virtual reduced-count spot of a
split) equals what was handed in. -/
lemma greedy_fill_conserves (v : Vehicle) :
    ∀ (spots : List PickupSpot) (load : Nat) (pid : String),
      assignedOf (greedy_fill_vehicle v load spots).1 pid +
        spotCount (greedy_fill_vehicle v load spots).2 pid =
      spotCount spots pid := by
  intro spots
  induction spots with
  | nil =>
    intro load pid
    rfl
  | cons p ps ih =>
    intro load pid
    by_cases h1 : load + p.worker_count ≤ v.capacity
    · simp only [greedy_fill_vehicle, if_pos h1]
      rw [assignedOf_cons, spotCount_cons]
      have := ih (load + p.worker_count) pid
      by_cases hpid : p.id = pid
      · simp only [if_pos hpid]; omega
      · simp only [if_neg hpid]; omega
    · by_cases h2 : load < v.capacity
      · simp only [greedy_fill_vehicle, if_neg h1, if_pos h2]
        rw [assignedOf_cons, spotCount_cons, spotCount_cons]
        have := ih (load + (v.capacity - load)) pid
        have hsplit : v.capacity - load ≤ p.worker_count := by omega
        by_cases hpid : p.id = pid
        · simp only [if_pos hpid]; omega
        · simp only [if_neg hpid]; omega
      · simp only [greedy_fill_vehicle, if_neg h1, if_neg h2]
        rw [spotCount_cons, spotCount_cons]
        have := ih load pid
        by_cases hpid : p.id = pid
        · simp only [if_pos hpid]; omega
        · simp only [if_neg hpid]; omega

/-- Every assignment the greedy outer loop produces carries the id of one
of its vehicles. -/
lemma greedy_assign_vehicle_ids :
    ∀ (vehicles : List Vehicle) (spots : List PickupSpot) (a : Assignment),
      a ∈ greedy_assign vehicles spots → ∃ v ∈ vehicles, a.vehicle_id = v.id := by
  intro vehicles
  induction vehicles with
  | nil =>
    intro spots a ha
    simp [greedy_assign] at ha
  | cons v vs ih =>
    intro spots a ha
    by_cases hempty : spots.isEmpty = true
    · simp [greedy_assign, hempty] at ha
    · simp only [greedy_assign, hempty, Bool.false_eq_true, if_false] at ha
      rcases List.mem_append.mp ha with hL | hR
      · exact ⟨v, List.mem_cons_self v vs,
          greedy_fill_vehicle_id v spots 0 a hL⟩
      · rcases ih (greedy_fill_vehicle v 0 spots).2 a hR with ⟨w, hw, haw⟩
        exact ⟨w, List.mem_cons_of_mem v hw, haw⟩

/-- Greedy construction never assigns more workers from a spot id than the
working list carries for it. -/
lemma greedy_assign_spot_le :
    ∀ (vehicles : List Vehicle) (spots : List PickupSpot) (pid : String),
      assignedOf (greedy_assign vehicles spots) pid ≤ spotCount spots pid := by
  intro vehicles
  induction vehicles with
  | nil =>
    intro spots pid
    exact Nat.zero_le _
  | cons v vs ih =>
    intro spots pid
    by_cases hempty : spots.isEmpty = true
    · simp only [greedy_assign, hempty, if_true]
      exact Nat.zero_le _
    · simp only [greedy_assign, hempty, Bool.false_eq_true, if_false]
      rw [assignedOf_append]
      have hcons := greedy_fill_conserves v spots 0 pid
      have hrest := ih (greedy_fill_vehicle v 0 spots).2 pid
      omega

/-- Greedy construction keeps every vehicle within capacity (vehicle ids
pairwise distinct, so later vehicles never add to an earlier id). -/
lemma greedy_assign_load :
    ∀ (vehicles : List Vehicle), (vehicles.map (fun v => v.id)).Nodup →
      ∀ (spots : List PickupSpot) (v : Vehicle), v ∈ vehicles →
      loadOf (greedy_assign vehicles spots) v.id ≤ v.capacity := by
  intro vehicles
  induction vehicles with
  | nil =>
    intro _ spots v hv
    simp at hv
  | cons w vs ih =>
    intro hnodup spots v hv
    rw [List.map_cons, List.nodup_cons] at hnodup
    by_cases hempty : spots.isEmpty = true
    · simp only [greedy_assign, hempty, if_true]
      exact Nat.zero_le _
    · simp only [greedy_assign, hempty, Bool.false_eq_true, if_false]
      rw [loadOf_append]
      rcases List.mem_cons.mp hv with rfl | hv'
      · have hall : ∀ a ∈ (greedy_fill_vehicle v 0 spots).1, a.vehicle_id = v.id :=
          fun a ha => greedy_fill_vehicle_id v spots 0 a ha
        have hzero : loadOf (greedy_assign vs (greedy_fill_vehicle v 0 spots).2) v.id = 0 := by
          apply loadOf_eq_zero
          intro a ha hvid
          rcases greedy_assign_vehicle_ids vs _ a ha with ⟨z, hz, haz⟩
          exact hnodup.1 (hvid ▸ haz ▸ List.mem_map.mpr ⟨z, hz, rfl⟩)
        rw [hzero, loadOf_of_all_eq _ _ hall]
        have := greedy_fill_load v spots 0 (Nat.zero_le _)
        omega
      · have hvw : v.id ≠ w.id := by
          intro h
          exact hnodup.1 (h ▸ List.mem_map.mpr ⟨v, hv', rfl⟩)
        have hzero : loadOf (greedy_fill_vehicle w 0 spots).1 v.id = 0 := by
          apply loadOf_eq_zero
          intro a ha hvid
          exact hvw (hvid.symm.trans (greedy_fill_vehicle_id w spots 0 a ha))
        rw [hzero, Nat.zero_add]
        exact ih hnodup.2 _ v hv'

lemma insertByCost_perm (v : Vehicle) (l : List Vehicle) :
    (insertByCost v l).Perm (v :: l) := by
  induction l with
  | nil => exact List.Perm.refl _
  | cons w ws ih =>
    by_cases h : w.cost_per_km < v.cost_per_km
    · simp only [insertByCost, if_pos h]
      exact (ih.cons w).trans (List.Perm.swap v w ws)
    · simp only [insertByCost, if_neg h]
      exact List.Perm.refl _

lemma sortVehiclesByCost_perm (l : List Vehicle) :
    (sortVehiclesByCost l).Perm l := by
  induction l with
  | nil => exact List.Perm.refl _
  | cons v vs ih =>
    exact (insertByCost_perm v (sortVehiclesByCost vs)).trans (ih.cons v)

lemma insertByWorkersDesc_perm (p : PickupSpot) (l : List PickupSpot) :
    (insertByWorkersDesc p l).Perm (p :: l) := by
  induction l with
  | nil => exact List.Perm.refl _
  | cons q qs ih =>
    by_cases h : p.worker_count < q.worker_count
    · simp only [insertByWorkersDesc, if_pos h]
      exact (ih.cons q).trans (List.Perm.swap p q qs)
    · simp only [insertByWorkersDesc, if_neg h]
      exact List.Perm.refl _

lemma sortSpotsByWorkersDesc_perm (l : List PickupSpot) :
    (sortSpotsByWorkersDesc l).Perm l := by
  induction l with
  | nil => exact List.Perm.refl _
  | cons p ps ih =>
    exact (insertByWorkersDesc_perm p (sortSpotsByWorkersDesc ps)).trans (ih.cons p)

/-- `spotCount` only depends on the multiset of spots. -/
lemma spotCount_perm {l1 l2 : List PickupSpot} (h : l1.Perm l2) (pid : String) :
    spotCount l1 pid = spotCount l2 pid :=
  List.Perm.sum_eq ((h.filter (fun z => z.id == pid)).map (fun z => z.worker_count))

/-- Claim C9: on every input with pairwise-distinct ids, positive
capacities and positive worker counts — even when total demand exceeds
total capacity — the greedy constructor respects both upper bounds: no
vehicle is loaded beyond its capacity, and no pickup spot has more workers
assigned than it declares. -/
theorem c9_greedy_respects_bounds
    (V : List Vehicle) (spots : List PickupSpot) (D : String → String → ℚ)
    (hVid : (V.map (fun v => v.id)).Nodup)
    (hSid : (spots.map (fun z => z.id)).Nodup)
    (_hcap : ∀ v ∈ V, 0 < v.capacity)
    (_hwork : ∀ p ∈ spots, 0 < p.worker_count) :
    (∀ v ∈ V, vehicleLoad (create_greedy_solution V spots D) v.id ≤ v.capacity) ∧
    (∀ p ∈ spots, spotAssigned (create_greedy_solution V spots D) p.id ≤
      p.worker_count) := by
  constructor
  · intro v hv
    show loadOf (greedy_assign (sortVehiclesByCost V) (sortSpotsByWorkersDesc spots))
        v.id ≤ v.capacity
    apply greedy_assign_load
    · exact (((sortVehiclesByCost_perm V).map (fun z => z.id)).nodup_iff).mpr hVid
    · exact (sortVehiclesByCost_perm V).mem_iff.mpr hv
  · intro p hp
    show assignedOf (greedy_assign (sortVehiclesByCost V) (sortSpotsByWorkersDesc spots))
        p.id ≤ p.worker_count
    have h1 := greedy_assign_spot_le (sortVehiclesByCost V)
      (sortSpotsByWorkersDesc spots) p.id
    rw [spotCount_perm (sortSpotsByWorkersDesc_perm spots) p.id,
      spotCount_eq_of_nodup spots p hSid hp] at h1
    exact h1

/-- Witness for C9: the greedy bounds at a concrete instance. -/
theorem c9_witness :
    vehicleLoad (create_greedy_solution exC2V exC2Spots exC2D) "v1" ≤ 20 ∧
    spotAssigned (create_greedy_solution exC2V exC2Spots exC2D) "A" ≤ 10 :=
  ⟨(c9_greedy_respects_bounds exC2V exC2Spots exC2D (by decide) (by decide)
      (by decide) (by decide)).1 ⟨"v1", "V1", 20, 1⟩ (by decide),
   (c9_greedy_respects_bounds exC2V exC2Spots exC2D (by decide) (by decide)
      (by decide) (by decide)).2 ⟨"A", "A", 0, 1, 10⟩ (by decide)⟩

end VRP
